import Mathlib

/-!
Verification development for the `wf` repository (github.com/bow/wf), a tool
that waits until TCP servers are ready to accept connections.

The development shallowly embeds the `wait` package of the repository:

* the address-spec parser `ParseTCPSpec` / `ParseTCPSpecs` (src/wait/tcp.go),
  including models of the Go standard library functions it calls
  (`regexp` matching of `addrPattern`, `net.SplitHostPort`,
  `time.ParseDuration`, `strings.ToLower`, `net.JoinHostPort`);
* the failed-connection classifier `shouldWait` (src/wait/utils.go);
* the per-target prober `SingleTCP`, the fan-in `merge` and the coordinator
  `AllTCP` (src/wait/tcp.go, src/wait/utils.go), embedded as trace relations:
  a prober run is the finite sequence of events its goroutine performs, the
  merged stream is an order-preserving interleaving of its input streams, and
  the coordinator output is either the fully forwarded merged stream or a
  forwarded prefix followed by the synthetic timeout message.

Strings are modelled as `List Char`, `time.Duration` (an `int64` of
nanoseconds) as `Int` with explicit overflow checks against 2^63, and
fallible Go functions as `Except`.  Wall-clock timestamps (`startTime`,
`emitTime`) are not modelled; no claim below depends on them.
-/

namespace WfWait

/-- 2^63, the first value outside the `uint64`-held `int64` range used by
`time.ParseDuration`'s overflow checks. -/
def two63 : Nat := 9223372036854775808

/-- 2^63 - 1, the largest `int64`. -/
def two63m1 : Nat := 9223372036854775807

/-! ## Status and target spec (src/wait/tcp.go) -/

/-- Waiting status, as emitted by the context-based `SingleTCP`/`AllTCP`:
`Start`, `Ready`, `Failed`. -/
inductive Status where
  | start
  | ready
  | failed
deriving DecidableEq, Repr

/-- `TCPSpec` from src/wait/tcp.go: the input specification of a single TCP
wait operation. -/
structure TCPSpec where
  Host : List Char
  Port : List Char
  PollFreq : Int
deriving DecidableEq, Repr

/-! ## Go error values, as inspected by the wait package

Only the structure that `shouldWait`, `os.IsTimeout` and the message
constructors look at is modelled: the dynamic type chain
(`*net.OpError` wrapping `*os.SyscallError` wrapping a `syscall.Errno`),
the result of the `Timeout() bool` method where a node has one (abstracted
to a boolean field for `*net.OpError` and other leaf errors; computed from
the errno value for `syscall.Errno`), `context.Canceled`, and the
coordinator's own timeout error. -/
inductive GoError where
  | opError (tmo : Bool) (inner : GoError)
  | syscallError (tmo : Bool) (inner : GoError)
  | errno (n : Nat)
  | contextCanceled
  | timeoutLimitError
  | otherError (tmo : Bool)
deriving DecidableEq, Repr

/-- `syscall.ECONNREFUSED` on linux/amd64, the platform the repository
targets. -/
def ECONNREFUSED : Nat := 111

/-- Result of the `Timeout() bool` interface method on an error value
(`false` when the dynamic type has no such method).  `*os.SyscallError`
forwards to its wrapped error; `syscall.Errno.Timeout()` is
`n == EAGAIN || n == EWOULDBLOCK || n == ETIMEDOUT` (11, 11, 110 on
linux/amd64); `context.Canceled` and the coordinator's timeout error are
plain `errors.errorString` values with no `Timeout` method. -/
def timeoutMethod : GoError → Bool
  | .opError tmo _ => tmo
  | .syscallError _ inner => timeoutMethod inner
  | .errno n => n == 11 || n == 110
  | .contextCanceled => false
  | .timeoutLimitError => false
  | .otherError tmo => tmo

/-- `os.IsTimeout`: unwraps one `*os.SyscallError` layer (via
`underlyingError`) and asks the `Timeout()` method; since
`(*os.SyscallError).Timeout()` itself forwards to the wrapped error, this
coincides with `timeoutMethod`. -/
def osIsTimeout (e : GoError) : Bool := timeoutMethod e

/-- `shouldWait` from src/wait/utils.go: whether a failed connection attempt
is a condition under which the prober should keep waiting and retry.
First case: i/o timeout (`os.IsTimeout`).  Second case: a `*net.OpError`
whose `Unwrap` is a `*os.SyscallError` whose `Unwrap` equals
`syscall.ECONNREFUSED`. -/
def shouldWait (err : GoError) : Bool :=
  if osIsTimeout err then
    true
  else
    match err with
    | .opError _ inner =>
      match inner with
      | .syscallError _ iinner =>
        match iinner with
        | .errno n => n == ECONNREFUSED
        | _ => false
      | _ => false
    | _ => false

/-- The shape the second case of `shouldWait` tests for: a connection
actively refused by the remote host. -/
def isConnRefused : GoError → Bool
  | .opError _ (.syscallError _ (.errno n)) => n == ECONNREFUSED
  | _ => false

/-! ## Messages (src/wait/tcp.go) -/

/-- `TCPMessage` from src/wait/tcp.go.  The `spec` pointer is `nil` exactly
for the coordinator's synthetic timeout message, modelled as `none`.  The
`startTime`/`emitTime` fields and the display closure `stringF` are not
modelled (wall-clock time and formatting only). -/
structure TCPMessage where
  spec : Option TCPSpec
  status : Status
  err : Option GoError
deriving DecidableEq, Repr

/-- `net.JoinHostPort`: brackets the host when it contains a colon. -/
def joinHostPort (host port : List Char) : List Char :=
  if host.any (fun c => c = ':') then
    '[' :: host ++ ']' :: ':' :: port
  else
    host ++ ':' :: port

/-- `(*TCPSpec).Addr` from src/wait/tcp.go: `net.JoinHostPort(spec.Host, spec.Port)`. -/
def TCPSpec.Addr (spec : TCPSpec) : List Char := joinHostPort spec.Host spec.Port

/-- `(*TCPMessage).Addr` from src/wait/tcp.go is `msg.spec.Addr()`, a read
through the `spec` pointer.  When `spec` is `nil` (the synthetic timeout
message) the Go method dereferences a nil pointer and panics at runtime;
the partiality is made explicit here by returning `none` in that case. -/
def TCPMessage.Addr? (msg : TCPMessage) : Option (List Char) :=
  msg.spec.map TCPSpec.Addr

/-- `NewTCPMessageStart spec startTime`. -/
def startMsg (spec : TCPSpec) : TCPMessage := ⟨some spec, .start, none⟩

/-- `NewTCPMessageReady spec startTime`. -/
def readyMsg (spec : TCPSpec) : TCPMessage := ⟨some spec, .ready, none⟩

/-- `NewTCPMessageFailed spec startTime err` with a non-nil spec. -/
def failedMsg (spec : TCPSpec) (e : GoError) : TCPMessage := ⟨some spec, .failed, some e⟩

/-- `ctx.Err()` after the coordinator cancels the shared context created by
`context.WithCancel`: `context.Canceled`. -/
def ctxErr : GoError := .contextCanceled

/-- The synthetic aggregate timeout message the coordinator emits when the
deadline fires: `NewTCPMessageFailed(nil, startTime, fmt.Errorf("reached timeout limit of %s", waitTimeout))`. -/
def syntheticTimeoutMsg : TCPMessage := ⟨none, .failed, some .timeoutLimitError⟩

/-! ## The address pattern (src/wait/tcp.go, `addrPattern`)

The regular expression is
`^(?P<schema>(?P<proto>[A-Za-z]+)://)?(?P<host>[^#]+)(#(?P<freq>.+))?`.
`matchAddr` computes the submatches `proto`, `host` and `freq` that
`FindStringSubmatch` produces, hand-compiled from leftmost-first matching:

* `proto` is the maximal ASCII-letter prefix and participates only when it
  is nonempty, is followed by `://`, and at least one non-`#` character
  remains after the `://` (otherwise the optional schema group backtracks
  to the empty match);
* `host` is the maximal nonempty run of non-`#` characters that follows;
* `freq` participates when a `#` follows the host and at least one
  non-newline character follows it (`.` does not match a newline), and then
  captures the maximal such run.

`none` means the whole pattern failed to match (possible only when the host
run would be empty), in which case `FindStringSubmatch` returns `nil` and
`ParseTCPSpec`'s `groups` map stays empty. -/

/-- `[A-Za-z]`. -/
def isGoRegexLetter (c : Char) : Bool :=
  ('A' ≤ c && c ≤ 'Z') || ('a' ≤ c && c ≤ 'z')

/-- The `(#(?P<freq>.+))?` suffix group applied to what follows the host. -/
def freqOf : List Char → Option (List Char)
  | '#' :: t =>
    let f := t.takeWhile (fun c => c ≠ '\n')
    if f = [] then none else some f
  | _ => none

/-- The pattern with the schema group matching empty: host is the maximal
nonempty non-`#` prefix of the whole input. -/
def matchHostOnly (s : List Char) : Option (List Char × List Char × Option (List Char)) :=
  let h := s.takeWhile (fun c => c ≠ '#')
  if h = [] then none
  else some ([], h, freqOf (s.dropWhile (fun c => c ≠ '#')))

/-- Submatches of `addrPattern` (see the section comment). -/
def matchAddr (s : List Char) : Option (List Char × List Char × Option (List Char)) :=
  match s.takeWhile isGoRegexLetter, s.dropWhile isGoRegexLetter with
  | p :: ps, ':' :: '/' :: '/' :: rest2 =>
    let h := rest2.takeWhile (fun c => c ≠ '#')
    if h = [] then matchHostOnly s
    else some (p :: ps, h, freqOf (rest2.dropWhile (fun c => c ≠ '#')))
  | _, _ => matchHostOnly s

/-! ## Go standard library helpers used by `ParseTCPSpec` -/

/-- `strings.ToLower`, restricted to its effect on ASCII (the `proto`
submatch consists of `[A-Za-z]` characters only). -/
def toLowerGo (s : List Char) : List Char :=
  s.map fun c => if 'A' ≤ c && c ≤ 'Z' then Char.ofNat (c.toNat + 32) else c

/-- Errors of `net.SplitHostPort` (`&AddrError{Err: why, Addr: ...}`),
identified by their `why` string. -/
inductive SplitErr where
  | missingPort
  | tooManyColons
  | missingRBracket
  | unexpectedLBracket
  | unexpectedRBracket
deriving DecidableEq, Repr

/-- `net.SplitHostPort`: the port starts after the last colon; a host
beginning with `[` must be a bracketed literal whose `]` immediately
precedes that colon; an unbracketed host may not itself contain a colon;
stray brackets are rejected. -/
def splitHostPort (s : List Char) : Except SplitErr (List Char × List Char) :=
  match s.reverse.findIdx? (fun c => c = ':') with
  | none => .error .missingPort
  | some rj =>
    let i := s.length - 1 - rj
    match s with
    | '[' :: _ =>
      match s.findIdx? (fun c => c = ']') with
      | none => .error .missingRBracket
      | some e =>
        if e + 1 = s.length then .error .missingPort
        else if e + 1 = i then
          if (s.drop 1).any (fun c => c = '[') then .error .unexpectedLBracket
          else if (s.drop (e + 1)).any (fun c => c = ']') then .error .unexpectedRBracket
          else .ok ((s.drop 1).take (e - 1), s.drop (i + 1))
        else if s.get? (e + 1) = some ':' then .error .tooManyColons
        else .error .missingPort
    | _ =>
      let host := s.take i
      if host.any (fun c => c = ':') then .error .tooManyColons
      else if s.any (fun c => c = '[') then .error .unexpectedLBracket
      else if s.any (fun c => c = ']') then .error .unexpectedRBracket
      else .ok (host, s.drop (i + 1))

/-- Errors of `time.ParseDuration`, identified by their message shape. -/
inductive DurError where
  | invalid
  | missingUnit
  | unknownUnit (u : List Char)
deriving DecidableEq, Repr

/-- `[0-9]`. -/
def isGoDigit (c : Char) : Bool := '0' ≤ c && c ≤ '9'

/-- `unitMap` of `time.ParseDuration`, in nanoseconds. -/
def durUnit (u : List Char) : Option Nat :=
  if u = "ns".toList then some 1
  else if u = "us".toList then some 1000
  else if u = "µs".toList then some 1000
  else if u = "μs".toList then some 1000
  else if u = "ms".toList then some 1000000
  else if u = "s".toList then some 1000000000
  else if u = "m".toList then some 60000000000
  else if u = "h".toList then some 3600000000000
  else none

/-- `leadingInt` of the `time` package: consume `[0-9]*`, erroring out when
the accumulated value overflows past 2^63. -/
def leadingInt : List Char → Nat → Except Unit (Nat × List Char)
  | [], x => .ok (x, [])
  | c :: rest, x =>
    if isGoDigit c then
      if x > two63 / 10 then .error ()
      else
        let x1 := x * 10 + (c.toNat - '0'.toNat)
        if x1 > two63 then .error () else leadingInt rest x1
    else .ok (x, c :: rest)

/-- `leadingFraction` of the `time` package: consume `[0-9]*` after the
decimal point, silently ignoring digits once the value would overflow.
Returns (value, scale, rest).  Go keeps `scale` as a `float64`; it is kept
exactly as a natural number here, which agrees for every fraction short
enough not to lose float precision. -/
def leadingFraction : List Char → Nat → Nat → Bool → Nat × Nat × List Char
  | [], x, scale, _ => (x, scale, [])
  | c :: rest, x, scale, ovf =>
    if isGoDigit c then
      if ovf then leadingFraction rest x scale ovf
      else if x > two63m1 / 10 then leadingFraction rest x scale true
      else
        let y := x * 10 + (c.toNat - '0'.toNat)
        if y > two63 then leadingFraction rest x scale true
        else leadingFraction rest y (scale * 10) false
    else (x, scale, c :: rest)

/-- The `(\.[0-9]*)?` step of `time.ParseDuration`: value after the point,
scale, remaining input, and whether any post-point digit was consumed. -/
def consumeFraction (s2 : List Char) : Nat × Nat × List Char × Bool :=
  match s2 with
  | '.' :: t =>
    let r := leadingFraction t 0 1 false
    (r.1, r.2.1, r.2.2, decide (r.2.2.length ≠ t.length))
  | _ => (0, 1, s2, false)

/-- The main loop of `time.ParseDuration`, over `([0-9]*(\.[0-9]*)?[a-z]+)+`.
`fuel` bounds the number of iterations; every iteration consumes at least
the one-character-or-longer unit, so `length s + 1` fuel is never
exhausted.  The fractional contribution `f * unit / scale` is computed
exactly where Go uses `float64`; the two agree whenever the float
computation is exact (in particular for every input without a fractional
part). -/
def parseLoop : Nat → List Char → Nat → Except DurError Nat
  | _, [], d => .ok d
  | 0, _ :: _, _ => .error .invalid
  | fuel + 1, s@(c :: _), d =>
    if ¬(c = '.' ∨ isGoDigit c = true) then .error .invalid
    else
      match leadingInt s 0 with
      | .error _ => .error .invalid
      | .ok (v, s2) =>
        let pre : Bool := decide (s2.length ≠ s.length)
        match consumeFraction s2 with
        | (f, scale, s3, post) =>
          if pre = false ∧ post = false then .error .invalid
          else
            let i := (s3.takeWhile (fun ch => ¬(ch = '.' ∨ isGoDigit ch = true))).length
            if i = 0 then .error .missingUnit
            else
              let u := s3.take i
              let s4 := s3.drop i
              match durUnit u with
              | none => .error (.unknownUnit u)
              | some unit =>
                if v > two63 / unit then .error .invalid
                else
                  let v1 := v * unit
                  let v2 := if f > 0 then v1 + f * unit / scale else v1
                  if v2 > two63 then .error .invalid
                  else
                    let d1 := d + v2
                    if d1 > two63 then .error .invalid
                    else parseLoop fuel s4 d1

/-- `time.ParseDuration`: optional sign, special case `"0"`, then the main
loop; the final value must fit an `int64`. -/
def parseDuration (s : List Char) : Except DurError Int :=
  let signRes : Bool × List Char :=
    match s with
    | '-' :: t => (true, t)
    | '+' :: t => (false, t)
    | _ => (false, s)
  let neg := signRes.1
  let s1 := signRes.2
  if s1 = ['0'] then .ok 0
  else if s1 = [] then .error .invalid
  else
    match parseLoop (s1.length + 1) s1 0 with
    | .error e => .error e
    | .ok d =>
      if neg then .ok (-(d : Int))
      else if d > two63m1 then .error .invalid
      else .ok (d : Int)

/-! ## `ParseTCPSpec` and `ParseTCPSpecs` (src/wait/tcp.go) -/

/-- Errors returned by `ParseTCPSpec`, identified by which `return nil, err`
produced them. -/
inductive ParseError where
  /-- "neither port nor protocol is given" -/
  | missingPort
  /-- "port not given and protocol is unknown: %q" -/
  | unknownScheme (proto : List Char)
  /-- an error propagated from `net.SplitHostPort` -/
  | addrError (e : SplitErr)
  /-- an error propagated from `time.ParseDuration` -/
  | durationError (e : DurError)
deriving DecidableEq, Repr

/-- `protoPort` from src/wait/tcp.go: the fixed table of well-known
protocol to default-port mappings, in source order. -/
def protoPort : List (List Char × List Char) :=
  [("amqp".toList, "5672".toList),
   ("amqps".toList, "5671".toList),
   ("http".toList, "80".toList),
   ("https".toList, "443".toList),
   ("imap".toList, "143".toList),
   ("mysql".toList, "3306".toList),
   ("ldap".toList, "389".toList),
   ("ldaps".toList, "636".toList),
   ("psql".toList, "5432".toList),
   ("smtp".toList, "25".toList)]

/-- Go map lookup on the (duplicate-free) `protoPort` table. -/
def assocLookup (k : List Char) : List (List Char × List Char) → Option (List Char)
  | [] => none
  | kv :: rest => if k = kv.1 then some kv.2 else assocLookup k rest

/-- `ParseTCPSpec` from src/wait/tcp.go.  When the pattern does not match at
all, `groups` stays empty, no branch fires, and the zero-value host and
port are returned with the default poll frequency.  Otherwise: an embedded
`:port` in the host wins; else a known (lowercased) protocol supplies the
default port; else the parse fails with the missing-port or
unknown-protocol error; finally a nonempty `freq` submatch must parse as a
duration and overrides the default poll frequency. -/
def ParseTCPSpec (addr : List Char) (pollFreq : Int) : Except ParseError TCPSpec :=
  match matchAddr addr with
  | none => .ok ⟨[], [], pollFreq⟩
  | some (proto, rawHost, freq?) =>
    let hostPort : Except ParseError (List Char × List Char) :=
      if rawHost.any (fun c => c = ':') then
        match splitHostPort rawHost with
        | .error e => .error (.addrError e)
        | .ok hp => .ok hp
      else
        match assocLookup (toLowerGo proto) protoPort with
        | some port => .ok (rawHost, port)
        | none =>
          if proto = [] then .error .missingPort
          else .error (.unknownScheme proto)
    match hostPort with
    | .error e => .error e
    | .ok (host, port) =>
      match freq? with
      | some rawFreq =>
        match parseDuration rawFreq with
        | .error e => .error (.durationError e)
        | .ok f => .ok ⟨host, port, f⟩
      | none => .ok ⟨host, port, pollFreq⟩

/-- `ParseTCPSpecs` from src/wait/tcp.go: parse each address in order with
the shared default poll frequency, short-circuiting on the first failure.
Note that the error of the failing entry is returned unchanged — the
`ParseError` type carries no record of the entry's position. -/
def ParseTCPSpecs (rawAddrs : List (List Char)) (defaultPollFreq : Int) :
    Except ParseError (List TCPSpec) :=
  match rawAddrs with
  | [] => .ok []
  | a :: rest =>
    match ParseTCPSpec a defaultPollFreq with
    | .error e => .error e
    | .ok spec =>
      match ParseTCPSpecs rest defaultPollFreq with
      | .error e => .error e
      | .ok specs => .ok (spec :: specs)

/-! ## The prober `SingleTCP` (src/wait/tcp.go), as a trace relation

The goroutine body of `SingleTCP` is embedded as the set of finite event
sequences it can perform.  An event is a channel send (`emit`), a
`net.DialTimeout` attempt together with its outcome (`attempt`), the
receipt of a poll tick (`tick`), the receipt of the cancellation signal
(`cancel`), or the `close` of the output channel.  The body emits `Start`,
attempts a connection immediately, and then loops, selecting between the
shared context's cancellation and the poll ticker; `checkConn` turns a
successful dial into `Ready`, a `shouldWait` error into another loop
iteration and any other error into `Failed`.  Runs that never terminate
(transient errors forever, no cancellation) perform no `close` and are not
elements of the relation. -/

/-- Outcome of one `net.DialTimeout` call. -/
inductive ConnResult where
  | ok
  | err (e : GoError)
deriving DecidableEq, Repr

/-- One observable step of a prober goroutine. -/
inductive SEvent where
  | emit (m : TCPMessage)
  | attempt (r : ConnResult)
  | tick
  | cancel
  | close
deriving DecidableEq, Repr

/-- The messages sent on the prober's channel during a trace, in order. -/
def emitsOf (tr : List SEvent) : List TCPMessage :=
  tr.filterMap fun e =>
    match e with
    | .emit m => some m
    | _ => none

/-- A terminal message for a target: it references the target's spec and its
status is `Ready` or `Failed`. -/
def terminalFor (spec : TCPSpec) (m : TCPMessage) : Prop :=
  m.spec = some spec ∧ (m.status = .ready ∨ m.status = .failed)

instance (spec : TCPSpec) (m : TCPMessage) : Decidable (terminalFor spec m) := by
  unfold terminalFor
  infer_instance

/-- Traces of the `for { select { ... } }` loop of `SingleTCP`, entered after
a transient first attempt.  Each iteration receives either the cancellation
signal (emit `Failed` with `ctx.Err()`, return) or a poll tick followed by a
connection attempt whose outcome decides between `Ready`, `Failed`, and
another iteration.  The deferred `close(out)` runs on return. -/
inductive LoopTrace (spec : TCPSpec) : List SEvent → Prop
  | done_cancel :
      LoopTrace spec [.cancel, .emit (failedMsg spec ctxErr), .close]
  | tick_ready :
      LoopTrace spec [.tick, .attempt .ok, .emit (readyMsg spec), .close]
  | tick_failed (e : GoError) (h : shouldWait e = false) :
      LoopTrace spec [.tick, .attempt (.err e), .emit (failedMsg spec e), .close]
  | tick_wait (e : GoError) (h : shouldWait e = true) (rest : List SEvent)
      (hr : LoopTrace spec rest) :
      LoopTrace spec (.tick :: .attempt (.err e) :: rest)

/-- Complete traces of the goroutine launched by `SingleTCP`: emit `Start`,
attempt immediately (before any tick), then either finish on the first
attempt or enter the loop. -/
inductive SingleTCPRun (spec : TCPSpec) : List SEvent → Prop
  | first_ready :
      SingleTCPRun spec
        [.emit (startMsg spec), .attempt .ok, .emit (readyMsg spec), .close]
  | first_failed (e : GoError) (h : shouldWait e = false) :
      SingleTCPRun spec
        [.emit (startMsg spec), .attempt (.err e), .emit (failedMsg spec e), .close]
  | first_wait (e : GoError) (h : shouldWait e = true) (rest : List SEvent)
      (hr : LoopTrace spec rest) :
      SingleTCPRun spec (.emit (startMsg spec) :: .attempt (.err e) :: rest)

/-! ## The fan-in `merge` (src/wait/utils.go)

`merge` starts one forwarding goroutine per input channel, each of which
sends its input's messages to the shared output in order, and closes the
output once the `sync.WaitGroup` reports every forwarder done — that is,
once every input channel has been observed closed.  Its output streams are
therefore exactly the order-preserving interleavings of the input streams,
terminated (closed) only once every input message has been forwarded.
`Merged chs out` holds when the finite stream `out` (the whole output up to
its close) is such an interleaving of the finite input streams `chs`. -/
inductive Merged : List (List TCPMessage) → List TCPMessage → Prop
  | done (chs : List (List TCPMessage)) (h : ∀ c ∈ chs, c = []) :
      Merged chs []
  | step (chs : List (List TCPMessage)) (i : Nat) (hi : i < chs.length)
      (x : TCPMessage) (t : List TCPMessage) (out : List TCPMessage)
      (hget : chs.get ⟨i, hi⟩ = x :: t)
      (hrest : Merged (chs.set i t) out) :
      Merged chs (x :: out)

/-! ## The coordinator `AllTCP` (src/wait/tcp.go)

`AllTCP` starts one prober per spec over a shared cancellable context,
merges their channels, and runs a forwarding goroutine that selects between
the global deadline timer and the merged channel.  If the merged channel
closes first, everything was forwarded and the output is closed.  If the
deadline fires first, the messages forwarded so far form an interleaving of
prefixes of the per-target streams; the goroutine then sends the synthetic
timeout message (spec `nil`), returns, and the deferred `cancel()` and
`close(out)` run — the remaining per-target messages (including the
cancellation-induced `Failed` of still-running probers) are never
forwarded.  `AllTCPOut specs out` holds when `out` is a possible complete
output stream of `AllTCP specs waitTimeout`. -/
inductive AllTCPOut (specs : List TCPSpec) : List TCPMessage → Prop
  | completed (trs : List (List SEvent)) (out : List TCPMessage)
      (hrun : List.Forall₂ (fun spec tr => SingleTCPRun spec tr) specs trs)
      (hmerge : Merged (trs.map emitsOf) out) :
      AllTCPOut specs out
  | timedOut (trs : List (List SEvent)) (ps : List (List TCPMessage))
      (w : List TCPMessage)
      (hrun : List.Forall₂ (fun spec tr => SingleTCPRun spec tr) specs trs)
      (hpre : List.Forall₂ (fun p tr => p <+: emitsOf tr) ps trs)
      (hmerge : Merged ps w) :
      AllTCPOut specs (w ++ [syntheticTimeoutMsg])

/-! ## Lemmas about the address pattern -/

theorem takeWhile_append_all {p : Char → Bool} {l1 l2 : List Char}
    (h : ∀ c ∈ l1, p c = true) :
    (l1 ++ l2).takeWhile p = l1 ++ l2.takeWhile p := by
  induction l1 with
  | nil => simp
  | cons c t ih =>
    have hc : p c = true := h c (by simp)
    simp only [List.cons_append, List.takeWhile_cons, hc, if_true]
    rw [ih fun x hx => h x (by simp [hx])]

theorem dropWhile_append_all {p : Char → Bool} {l1 l2 : List Char}
    (h : ∀ c ∈ l1, p c = true) :
    (l1 ++ l2).dropWhile p = l2.dropWhile p := by
  induction l1 with
  | nil => simp
  | cons c t ih =>
    have hc : p c = true := h c (by simp)
    simp only [List.cons_append, List.dropWhile_cons, hc, if_true]
    exact ih fun x hx => h x (by simp [hx])

theorem takeWhile_all {p : Char → Bool} {l : List Char}
    (h : ∀ c ∈ l, p c = true) : l.takeWhile p = l := by
  have h2 := @takeWhile_append_all p l [] h
  simpa using h2

theorem dropWhile_all {p : Char → Bool} {l : List Char}
    (h : ∀ c ∈ l, p c = true) : l.dropWhile p = [] := by
  have h2 := @dropWhile_append_all p l [] h
  simpa using h2

theorem any_eq_false_of_all {p : Char → Bool} {l : List Char}
    (h : ∀ c ∈ l, p c = false) : l.any p = false := by
  induction l with
  | nil => simp
  | cons c t ih =>
    simp only [List.any_cons, h c (by simp), Bool.false_or]
    exact ih fun x hx => h x (by simp [hx])

/-- On a scheme-and-host address with a nonempty all-letter scheme and a
nonempty `#`-free host, the pattern captures exactly the scheme and the
host, with no `freq` submatch. -/
theorem matchAddr_scheme (proto host : List Char) (hp : proto ≠ [])
    (hl : ∀ c ∈ proto, isGoRegexLetter c = true)
    (hh : host ≠ []) (hhash : ∀ c ∈ host, c ≠ '#') :
    matchAddr (proto ++ ':' :: '/' :: '/' :: host) = some (proto, host, none) := by
  have hhash' : ∀ c ∈ host, (fun c => decide (c ≠ '#')) c = true := by
    intro c hc
    simp [hhash c hc]
  have ht : (proto ++ ':' :: '/' :: '/' :: host).takeWhile isGoRegexLetter = proto := by
    rw [takeWhile_append_all hl]
    simp [List.takeWhile_cons, isGoRegexLetter]
  have hd : (proto ++ ':' :: '/' :: '/' :: host).dropWhile isGoRegexLetter =
      ':' :: '/' :: '/' :: host := by
    rw [dropWhile_append_all hl]
    simp [List.dropWhile_cons, isGoRegexLetter]
  obtain ⟨c, cs, rfl⟩ : ∃ c cs, proto = c :: cs := by
    cases proto with
    | nil => exact absurd rfl hp
    | cons c cs => exact ⟨c, cs, rfl⟩
  unfold matchAddr
  rw [ht, hd]
  simp only [takeWhile_all hhash', hh, if_neg hh, dropWhile_all hhash']
  rfl

/-- `ParseTCPSpec` on a scheme-and-host address whose lowercased scheme is in
the `protoPort` table: the host is kept and the table's port is used. -/
theorem parse_scheme_known (proto host : List Char) (d : Int) (port : List Char)
    (hp : proto ≠ []) (hl : ∀ c ∈ proto, isGoRegexLetter c = true)
    (hh : host ≠ []) (hhash : ∀ c ∈ host, c ≠ '#') (hcol : ∀ c ∈ host, c ≠ ':')
    (hlook : assocLookup (toLowerGo proto) protoPort = some port) :
    ParseTCPSpec (proto ++ ':' :: '/' :: '/' :: host) d = .ok ⟨host, port, d⟩ := by
  have hany : host.any (fun c => c = ':') = false := by
    refine any_eq_false_of_all ?_
    intro c hc
    simp [hcol c hc]
  unfold ParseTCPSpec
  rw [matchAddr_scheme proto host hp hl hh hhash]
  simp [hany, hlook]

/-- `ParseTCPSpec` on a scheme-and-host address whose lowercased scheme is
not in the `protoPort` table: the unknown-protocol error, naming the
scheme. -/
theorem parse_scheme_unknown (proto host : List Char) (d : Int)
    (hp : proto ≠ []) (hl : ∀ c ∈ proto, isGoRegexLetter c = true)
    (hh : host ≠ []) (hhash : ∀ c ∈ host, c ≠ '#') (hcol : ∀ c ∈ host, c ≠ ':')
    (hlook : assocLookup (toLowerGo proto) protoPort = none) :
    ParseTCPSpec (proto ++ ':' :: '/' :: '/' :: host) d =
      .error (.unknownScheme proto) := by
  have hany : host.any (fun c => c = ':') = false := by
    refine any_eq_false_of_all ?_
    intro c hc
    simp [hcol c hc]
  unfold ParseTCPSpec
  rw [matchAddr_scheme proto host hp hl hh hhash]
  simp [hany, hlook, hp]

/-- On an address of the form `localhost:5000#<f>` with `f` nonempty and
newline-free, the pattern captures no scheme, host `localhost:5000` and
freq `f`. -/
theorem matchAddr_freq (f : List Char) (hf : f ≠ []) (hn : ∀ c ∈ f, c ≠ '\n') :
    matchAddr ("localhost:5000#".toList ++ f) =
      some ([], "localhost:5000".toList, some f) := by
  have hfn : f.takeWhile (fun c => c ≠ '\n') = f :=
    takeWhile_all fun c hc => by simp [hn c hc]
  show some (([] : List Char), "localhost:5000".toList,
      if f.takeWhile (fun c => c ≠ '\n') = [] then none
      else some (f.takeWhile (fun c => c ≠ '\n'))) =
    some ([], "localhost:5000".toList, some f)
  rw [hfn, if_neg hf]

/-- `ParseTCPSpec` on `localhost:5000#<f>`: the embedded port is split off
and the parse reduces to `time.ParseDuration` on `f`. -/
theorem parse_freq (f : List Char) (d : Int) (hf : f ≠ [])
    (hn : ∀ c ∈ f, c ≠ '\n') :
    ParseTCPSpec ("localhost:5000#".toList ++ f) d =
      (match parseDuration f with
       | .error e => .error (.durationError e)
       | .ok fr => .ok ⟨"localhost".toList, "5000".toList, fr⟩) := by
  unfold ParseTCPSpec
  rw [matchAddr_freq f hf hn]
  rfl

/-- Every entry of the `protoPort` table has a nonempty, all-letter,
already-lowercase key that the Go map lookup resolves to its port. -/
theorem protoPort_keys_ok :
    ∀ kv ∈ protoPort, kv.1 ≠ [] ∧ (∀ c ∈ kv.1, isGoRegexLetter c = true) ∧
      toLowerGo kv.1 = kv.1 ∧ assocLookup kv.1 protoPort = some kv.2 := by
  decide

/-- C2, amended: the fixed table maps the scheme `psql` (not `postgresql`)
to `5432`; for every scheme of the table and every address
`<scheme>://<host>` whose host is nonempty and contains no `#` and no
embedded `:port`, `ParseTCPSpec` succeeds and returns the table's default
port for that scheme; in particular parsing `psql://h` yields port
`5432`. -/
theorem c2_scheme_default_port :
    (∀ (s p host : List Char) (d : Int), (s, p) ∈ protoPort → host ≠ [] →
      (∀ c ∈ host, c ≠ '#') → (∀ c ∈ host, c ≠ ':') →
      ParseTCPSpec (s ++ ':' :: '/' :: '/' :: host) d = .ok ⟨host, p, d⟩) ∧
    (∀ d : Int, ParseTCPSpec ("psql://h".toList) d =
      .ok ⟨['h'], "5432".toList, d⟩) := by
  constructor
  · intro s p host d hmem hh hhash hcol
    obtain ⟨h1, h2, h3, h4⟩ := protoPort_keys_ok (s, p) hmem
    refine parse_scheme_known _ _ _ _ h1 h2 hh hhash hcol ?_
    rw [h3]
    exact h4
  · intro d
    rfl

/-- Counterexample to C2 as stated: the table does not contain
`postgresql`; parsing `postgresql://h` fails with the unknown-protocol
error naming `postgresql` instead of yielding port `5432`. -/
theorem c2_counterexample :
    ParseTCPSpec ("postgresql://h".toList) 1000000000 =
      .error (.unknownScheme ("postgresql".toList)) := by
  rfl

/-- Witness for `c2_scheme_default_port` at scheme `psql`, host `h`. -/
theorem c2_scheme_default_port_witness :
    (("psql".toList, "5432".toList) ∈ protoPort ∧ (['h'] : List Char) ≠ [] ∧
      (∀ c ∈ (['h'] : List Char), c ≠ '#') ∧
      (∀ c ∈ (['h'] : List Char), c ≠ ':')) ∧
    ParseTCPSpec ("psql".toList ++ ':' :: '/' :: '/' :: ['h']) 37 =
      .ok ⟨['h'], "5432".toList, 37⟩ :=
  ⟨⟨by decide, by decide, by decide, by decide⟩,
    c2_scheme_default_port.1 "psql".toList "5432".toList ['h'] 37 (by decide)
      (by decide) (by decide) (by decide)⟩

/-- C8: a bare host with neither port nor scheme fails with the
missing-port error, and an unknown scheme without a port fails with the
unknown-protocol error carrying the scheme `foo`. -/
theorem c8_parse_errors :
    ∀ d : Int,
      ParseTCPSpec ("localhost".toList) d = .error .missingPort ∧
      ParseTCPSpec ("foo://localhost".toList) d =
        .error (.unknownScheme ("foo".toList)) :=
  fun _ => ⟨rfl, rfl⟩

/-- Witness for `c8_parse_errors` at the default poll interval 7ns. -/
theorem c8_parse_errors_witness :
    ParseTCPSpec ("localhost".toList) 7 = .error .missingPort ∧
    ParseTCPSpec ("foo://localhost".toList) 7 =
      .error (.unknownScheme ("foo".toList)) :=
  c8_parse_errors 7

/-- C9: `localhost:5000#3s` parses to host `localhost`, port `5000` and
poll interval 3s (3000000000ns) for every default `d`; and whenever the
`#` suffix (nonempty, newline-free, hence captured verbatim by the
pattern) is rejected by `time.ParseDuration`, the parse fails with that
duration error. -/
theorem c9_poll_interval_override :
    (∀ d : Int, ParseTCPSpec ("localhost:5000#3s".toList) d =
      .ok ⟨"localhost".toList, "5000".toList, 3000000000⟩) ∧
    (∀ (f : List Char) (d : Int) (e : DurError), f ≠ [] →
      (∀ c ∈ f, c ≠ '\n') → parseDuration f = .error e →
      ParseTCPSpec ("localhost:5000#".toList ++ f) d =
        .error (.durationError e)) := by
  constructor
  · intro d
    rfl
  · intro f d e hf hn he
    rw [parse_freq f d hf hn, he]

/-- Witness for `c9_poll_interval_override`: the valid suffix `3s` and the
malformed suffix `3x`. -/
theorem c9_poll_interval_override_witness :
    ParseTCPSpec ("localhost:5000#3s".toList) 7 =
      .ok ⟨"localhost".toList, "5000".toList, 3000000000⟩ ∧
    ("3x".toList ≠ [] ∧ (∀ c ∈ "3x".toList, c ≠ '\n') ∧
      parseDuration ("3x".toList) = .error (.unknownUnit ['x'])) ∧
    ParseTCPSpec ("localhost:5000#3x".toList) 7 =
      .error (.durationError (.unknownUnit ['x'])) :=
  ⟨c9_poll_interval_override.1 7, ⟨by decide, by decide, by rfl⟩,
    c9_poll_interval_override.2 ("3x".toList) 7 (.unknownUnit ['x'])
      (by decide) (by decide) (by rfl)⟩

/-- C10: scheme matching is case-insensitive.  For every all-letter scheme
whose `strings.ToLower` image is a key of the table, parsing
`<scheme>://<host>` (host nonempty, no `#`, no embedded port) succeeds
with the table's port, and returns the same result as parsing with the
lower-cased scheme. -/
theorem c10_scheme_case_insensitive :
    ∀ (proto host : List Char) (d : Int) (p : List Char),
      proto ≠ [] → (∀ c ∈ proto, isGoRegexLetter c = true) →
      host ≠ [] → (∀ c ∈ host, c ≠ '#') → (∀ c ∈ host, c ≠ ':') →
      (toLowerGo proto, p) ∈ protoPort →
      ParseTCPSpec (proto ++ ':' :: '/' :: '/' :: host) d = .ok ⟨host, p, d⟩ ∧
      ParseTCPSpec (toLowerGo proto ++ ':' :: '/' :: '/' :: host) d =
        .ok ⟨host, p, d⟩ := by
  intro proto host d p hp hl hh hhash hcol hmem
  obtain ⟨h1, h2, h3, h4⟩ := protoPort_keys_ok (toLowerGo proto, p) hmem
  refine ⟨parse_scheme_known _ _ _ _ hp hl hh hhash hcol h4, ?_⟩
  refine parse_scheme_known _ _ _ _ h1 h2 hh hhash hcol ?_
  rw [h3]
  exact h4

/-- Witness for `c10_scheme_case_insensitive` at `HTTPS://h`. -/
theorem c10_scheme_case_insensitive_witness :
    ("HTTPS".toList ≠ [] ∧ (∀ c ∈ "HTTPS".toList, isGoRegexLetter c = true) ∧
      (['h'] : List Char) ≠ [] ∧ (∀ c ∈ (['h'] : List Char), c ≠ '#') ∧
      (∀ c ∈ (['h'] : List Char), c ≠ ':') ∧
      (toLowerGo ("HTTPS".toList), "443".toList) ∈ protoPort) ∧
    ParseTCPSpec ("HTTPS".toList ++ ':' :: '/' :: '/' :: ['h']) 5 =
      .ok ⟨['h'], "443".toList, 5⟩ ∧
    ParseTCPSpec (toLowerGo ("HTTPS".toList) ++ ':' :: '/' :: '/' :: ['h']) 5 =
      .ok ⟨['h'], "443".toList, 5⟩ :=
  ⟨⟨by decide, by decide, by decide, by decide, by decide, by decide⟩,
    c10_scheme_case_insensitive "HTTPS".toList ['h'] 5 "443".toList
      (by decide) (by decide) (by decide) (by decide) (by decide) (by decide)⟩

/-- C3 (code-bug evidence): `ParseTCPSpecs` applies `ParseTCPSpec` to the
entries in order with the shared default, returns all specs when all
entries parse, and short-circuits on the first failing entry — but the
error it returns is the failing entry's error unchanged: the `ParseError`
type records no position, while `TestParseTCPSpecs` (src/wait/tcp_test.go)
expects the error message `address 1: neither port nor protocol is
given`. -/
theorem c3_parse_all_no_position :
    ∀ d : Int,
      ParseTCPSpecs ["127.0.0.1:3000".toList, "https://golang.org".toList,
        "localhost:1234#200ms".toList] d =
        .ok [⟨"127.0.0.1".toList, "3000".toList, d⟩,
          ⟨"golang.org".toList, "443".toList, d⟩,
          ⟨"localhost".toList, "1234".toList, 200000000⟩] ∧
      ParseTCPSpecs ["127.0.0.1:3000".toList, "localhost".toList,
        "localhost:1234#200ms".toList] d = .error .missingPort :=
  fun _ => ⟨rfl, rfl⟩

/-- Witness for `c3_parse_all_no_position` at the test's default of 1s. -/
theorem c3_parse_all_no_position_witness :
    ParseTCPSpecs ["127.0.0.1:3000".toList, "https://golang.org".toList,
      "localhost:1234#200ms".toList] 1000000000 =
      .ok [⟨"127.0.0.1".toList, "3000".toList, 1000000000⟩,
        ⟨"golang.org".toList, "443".toList, 1000000000⟩,
        ⟨"localhost".toList, "1234".toList, 200000000⟩] ∧
    ParseTCPSpecs ["127.0.0.1:3000".toList, "localhost".toList,
      "localhost:1234#200ms".toList] 1000000000 = .error .missingPort :=
  c3_parse_all_no_position 1000000000

/-- C4 (code-bug evidence): the synthetic aggregate timeout message carries
no `TCPSpec`, and on it the `Addr` accessor of src/wait/tcp.go has no
value (the Go method dereferences the nil `spec` pointer and panics,
rather than returning a placeholder as the claim — and `TestMessageTarget`
in src/wait/tcp_test.go — requires); on a message with an attached spec it
returns `<host>:<port>`. -/
theorem c4_addr_nil_deref :
    syntheticTimeoutMsg.spec = none ∧
    TCPMessage.Addr? syntheticTimeoutMsg = none ∧
    TCPMessage.Addr? (startMsg ⟨"localhost".toList, "7000".toList, 1⟩) =
      some ("localhost:7000".toList) :=
  ⟨rfl, rfl, by decide⟩

/-! ## Lemmas about `Merged` -/

theorem get_set_self {α : Type} :
    ∀ (l : List α) (i : Nat) (t : α) (h : i < (l.set i t).length),
      (l.set i t).get ⟨i, h⟩ = t := by
  intro l
  induction l with
  | nil => intro i t h; simp at h
  | cons c rest ih =>
    intro i t h
    cases i with
    | zero => rfl
    | succ j => exact ih j t (by simpa using h)

theorem get_set_other {α : Type} :
    ∀ (l : List α) (i j : Nat) (t : α), j ≠ i → ∀ (hj : j < l.length)
      (hj2 : j < (l.set i t).length), (l.set i t).get ⟨j, hj2⟩ = l.get ⟨j, hj⟩ := by
  intro l
  induction l with
  | nil => intro i j t hne hj; simp at hj
  | cons c rest ih =>
    intro i j t hne hj hj2
    cases i with
    | zero =>
      cases j with
      | zero => exact absurd rfl hne
      | succ k => rfl
    | succ i2 =>
      cases j with
      | zero => rfl
      | succ k =>
        exact ih i2 k t (by omega) (by simpa using hj) (by simpa using hj2)

theorem join_set_perm :
    ∀ {chs : List (List TCPMessage)} (i : Nat) (hi : i < chs.length)
      (x : TCPMessage) (t : List TCPMessage),
      chs.get ⟨i, hi⟩ = x :: t → chs.flatten.Perm (x :: (chs.set i t).flatten) := by
  intro chs
  induction chs with
  | nil => intro i hi; exact absurd hi (by simp)
  | cons c rest ih =>
    intro i hi x t hget
    cases i with
    | zero =>
      have hc : c = x :: t := hget
      subst hc
      simp
    | succ j =>
      have hj : j < rest.length := by simpa using hi
      have hgj : rest.get ⟨j, hj⟩ = x :: t := hget
      have hperm := ih j hj x t hgj
      have h1 : (c ++ rest.flatten).Perm (c ++ (x :: (rest.set j t).flatten)) :=
        hperm.append_left c
      have h2 : (c ++ (x :: (rest.set j t).flatten)).Perm
          (x :: (c ++ (rest.set j t).flatten)) := List.perm_middle
      simpa using h1.trans h2

theorem merged_perm {chs : List (List TCPMessage)} {out : List TCPMessage}
    (h : Merged chs out) : out.Perm chs.flatten := by
  induction h with
  | done chs hall =>
    rw [List.flatten_eq_nil_iff.mpr hall]
  | step chs i hi x t out hget hrest ih =>
    exact (ih.cons x).trans (join_set_perm i hi x t hget).symm

theorem merged_get_sublist {chs : List (List TCPMessage)} {out : List TCPMessage}
    (h : Merged chs out) :
    ∀ j (hj : j < chs.length), (chs.get ⟨j, hj⟩).Sublist out := by
  induction h with
  | done chs hall =>
    intro j hj
    rw [hall _ (List.get_mem chs j hj)]
  | step chs i hi x t out hget hrest ih =>
    intro j hj
    rcases eq_or_ne j i with rfl | hne
    · have hj2 : j < (chs.set j t).length := by simpa using hj
      have hsub := ih j hj2
      rw [get_set_self chs j t hj2] at hsub
      have hgx : chs.get ⟨j, hj⟩ = x :: t := hget
      rw [hgx]
      exact hsub.cons₂ x
    · have hj2 : j < (chs.set i t).length := by simpa using hj
      have hsub := ih j hj2
      rw [get_set_other chs i j t hne hj hj2] at hsub
      exact hsub.cons x

/-- C7: for every finite family of input streams, the merged stream
forwards every message of every input preserving each input's internal
order (each input is a sublist of the output), consists of exactly the
input messages (a permutation of their concatenation — so the output's
end, i.e. its close, comes only after every input has been drained and
observed closed), and with zero inputs the output closes immediately with
no messages. -/
theorem c7_merge_closes_after_all :
    ∀ (chs : List (List TCPMessage)) (out : List TCPMessage), Merged chs out →
      (∀ c ∈ chs, c.Sublist out) ∧ out.Perm chs.flatten ∧
      (chs = [] → out = []) := by
  intro chs out h
  refine ⟨?_, merged_perm h, ?_⟩
  · intro c hc
    rcases List.mem_iff_get.mp hc with ⟨n, rfl⟩
    exact merged_get_sublist h n.1 n.2
  · rintro rfl
    have hp := merged_perm h
    simpa using hp.eq_nil

/-- Witness for `c7_merge_closes_after_all` on two singleton inputs. -/
theorem c7_merge_closes_after_all_witness :
    Merged [[startMsg ⟨['a'], ['1'], 1⟩], [readyMsg ⟨['a'], ['1'], 1⟩]]
      [startMsg ⟨['a'], ['1'], 1⟩, readyMsg ⟨['a'], ['1'], 1⟩] ∧
    (∀ c ∈ [[startMsg ⟨['a'], ['1'], 1⟩], [readyMsg ⟨['a'], ['1'], 1⟩]],
      c.Sublist [startMsg ⟨['a'], ['1'], 1⟩, readyMsg ⟨['a'], ['1'], 1⟩]) ∧
    List.Perm [startMsg ⟨['a'], ['1'], 1⟩, readyMsg ⟨['a'], ['1'], 1⟩]
      (List.flatten [[startMsg ⟨['a'], ['1'], 1⟩], [readyMsg ⟨['a'], ['1'], 1⟩]]) ∧
    ([[startMsg ⟨['a'], ['1'], 1⟩], [readyMsg ⟨['a'], ['1'], 1⟩]] =
        ([] : List (List TCPMessage)) →
      [startMsg ⟨['a'], ['1'], 1⟩, readyMsg ⟨['a'], ['1'], 1⟩] = []) := by
  have hm : Merged [[startMsg ⟨['a'], ['1'], 1⟩], [readyMsg ⟨['a'], ['1'], 1⟩]]
      [startMsg ⟨['a'], ['1'], 1⟩, readyMsg ⟨['a'], ['1'], 1⟩] := by
    refine .step _ 0 (by simp) _ [] _ rfl ?_
    refine .step _ 1 (by simp) _ [] _ rfl ?_
    exact .done _ (by simp)
  obtain ⟨h1, h2, h3⟩ := c7_merge_closes_after_all _ _ hm
  exact ⟨hm, h1, h2, h3⟩

/-! ## Lemmas about prober traces -/

theorem loop_shape {spec : TCPSpec} {tr : List SEvent} (h : LoopTrace spec tr) :
    ∃ pre m, tr = pre ++ [.emit m, .close] ∧ terminalFor spec m ∧
      emitsOf tr = [m] ∧
      ∀ e ∈ pre, e = .tick ∨ e = .cancel ∨ ∃ r, e = .attempt r := by
  induction h with
  | done_cancel =>
    refine ⟨[.cancel], failedMsg spec ctxErr, rfl, ⟨rfl, Or.inr rfl⟩, rfl, ?_⟩
    intro e he
    fin_cases he
    exact Or.inr (Or.inl rfl)
  | tick_ready =>
    refine ⟨[.tick, .attempt .ok], readyMsg spec, rfl, ⟨rfl, Or.inl rfl⟩, rfl, ?_⟩
    intro e he
    fin_cases he
    · exact Or.inl rfl
    · exact Or.inr (Or.inr ⟨.ok, rfl⟩)
  | tick_failed e2 he2 =>
    refine ⟨[.tick, .attempt (.err e2)], failedMsg spec e2, rfl,
      ⟨rfl, Or.inr rfl⟩, rfl, ?_⟩
    intro e he
    fin_cases he
    · exact Or.inl rfl
    · exact Or.inr (Or.inr ⟨.err e2, rfl⟩)
  | tick_wait e2 he2 rest hr ih =>
    obtain ⟨pre, m, hE, hterm, hem, hpre⟩ := ih
    refine ⟨.tick :: .attempt (.err e2) :: pre, m, by simp [hE], hterm, ?_, ?_⟩
    · simpa [emitsOf] using hem
    · intro e he
      simp only [List.mem_cons] at he
      rcases he with rfl | rfl | he
      · exact Or.inl rfl
      · exact Or.inr (Or.inr ⟨.err e2, rfl⟩)
      · exact hpre e he

theorem single_shape {spec : TCPSpec} {tr : List SEvent}
    (h : SingleTCPRun spec tr) :
    ∃ a mid m,
      tr = .emit (startMsg spec) :: .attempt a :: (mid ++ [.emit m, .close]) ∧
      terminalFor spec m ∧ emitsOf tr = [startMsg spec, m] ∧
      ∀ e ∈ mid, e = .tick ∨ e = .cancel ∨ ∃ r, e = .attempt r := by
  cases h with
  | first_ready =>
    exact ⟨.ok, [], readyMsg spec, rfl, ⟨rfl, Or.inl rfl⟩, rfl, by simp⟩
  | first_failed e he =>
    exact ⟨.err e, [], failedMsg spec e, rfl, ⟨rfl, Or.inr rfl⟩, rfl, by simp⟩
  | first_wait e he rest hr =>
    obtain ⟨pre, m, hE, hterm, hem, hpre⟩ := loop_shape hr
    exact ⟨.err e, pre, m, by simp [hE], hterm, by simpa [emitsOf] using hem, hpre⟩

/-- C6: every complete prober stream starts with exactly one `Start`
message, emitted before any connection attempt; the first attempt comes
immediately, before any poll tick (the second event is already an
attempt); exactly one terminal `Ready`-or-`Failed` message for the target
is emitted, as the last message; and the channel close immediately
follows it, with no further events. -/
theorem c6_single_stream :
    ∀ (spec : TCPSpec) (tr : List SEvent), SingleTCPRun spec tr →
      ∃ a mid m,
        tr = .emit (startMsg spec) :: .attempt a :: (mid ++ [.emit m, .close]) ∧
        (∀ e ∈ mid, e = .tick ∨ e = .cancel ∨ ∃ r, e = .attempt r) ∧
        terminalFor spec m ∧ emitsOf tr = [startMsg spec, m] := by
  intro spec tr h
  obtain ⟨a, mid, m, hE, hterm, hem, hmid⟩ := single_shape h
  exact ⟨a, mid, m, hE, hmid, hterm, hem⟩

/-- Witness for `c6_single_stream` on a first-attempt success. -/
theorem c6_single_stream_witness :
    SingleTCPRun ⟨['b'], ['2'], 1⟩
      [.emit (startMsg ⟨['b'], ['2'], 1⟩), .attempt .ok,
        .emit (readyMsg ⟨['b'], ['2'], 1⟩), .close] ∧
    ∃ a mid m,
      [SEvent.emit (startMsg ⟨['b'], ['2'], 1⟩), .attempt .ok,
          .emit (readyMsg ⟨['b'], ['2'], 1⟩), .close] =
        .emit (startMsg ⟨['b'], ['2'], 1⟩) :: .attempt a ::
          (mid ++ [.emit m, .close]) ∧
      (∀ e ∈ mid, e = .tick ∨ e = .cancel ∨ ∃ r, e = .attempt r) ∧
      terminalFor ⟨['b'], ['2'], 1⟩ m ∧
      emitsOf [SEvent.emit (startMsg ⟨['b'], ['2'], 1⟩), .attempt .ok,
          .emit (readyMsg ⟨['b'], ['2'], 1⟩), .close] =
        [startMsg ⟨['b'], ['2'], 1⟩, m] :=
  ⟨.first_ready, c6_single_stream _ _ .first_ready⟩

theorem loop_head {spec : TCPSpec} {tr : List SEvent} (h : LoopTrace spec tr) :
    (∃ q, tr = .cancel :: q) ∨ ∃ r q, tr = .tick :: .attempt r :: q := by
  cases h with
  | done_cancel => exact Or.inl ⟨_, rfl⟩
  | tick_ready => exact Or.inr ⟨.ok, _, rfl⟩
  | tick_failed e he => exact Or.inr ⟨.err e, _, rfl⟩
  | tick_wait e he rest hr => exact Or.inr ⟨.err e, _, rfl⟩

theorem loop_attempt_decomp {spec : TCPSpec} {tr : List SEvent}
    (h : LoopTrace spec tr) :
    ∀ (pre : List SEvent) (e : GoError) (post : List SEvent),
      tr = pre ++ .attempt (.err e) :: post →
      (shouldWait e = false → post = [.emit (failedMsg spec e), .close]) ∧
      (shouldWait e = true →
        (∃ q, post = .cancel :: q) ∨ ∃ r q, post = .tick :: .attempt r :: q) := by
  induction h with
  | done_cancel =>
    intro pre e post hEq
    rcases pre with _ | ⟨a, _ | ⟨b, _ | ⟨c, pre⟩⟩⟩ <;> simp at hEq
  | tick_ready =>
    intro pre e post hEq
    rcases pre with _ | ⟨a, _ | ⟨b, _ | ⟨c, _ | ⟨d, pre⟩⟩⟩⟩ <;> simp at hEq
  | tick_failed e2 he2 =>
    intro pre e post hEq
    rcases pre with _ | ⟨a, _ | ⟨b, _ | ⟨c, _ | ⟨d, pre⟩⟩⟩⟩
    · simp at hEq
    · simp only [List.cons_append, List.nil_append, List.cons.injEq] at hEq
      obtain ⟨-, he3, hpost⟩ := hEq
      injection he3 with h3
      injection h3 with h4
      subst h4
      refine ⟨fun _ => hpost.symm, fun hsw => ?_⟩
      rw [he2] at hsw
      exact Bool.noConfusion hsw
    · simp at hEq
    · simp at hEq
    · simp at hEq
  | tick_wait e2 he2 rest hr ih =>
    intro pre e post hEq
    rcases pre with _ | ⟨a, _ | ⟨b, pre⟩⟩
    · simp at hEq
    · simp only [List.cons_append, List.nil_append, List.cons.injEq] at hEq
      obtain ⟨-, he3, hpost⟩ := hEq
      injection he3 with h3
      injection h3 with h4
      subst h4
      subst hpost
      refine ⟨fun hsw => ?_, fun _ => loop_head hr⟩
      rw [hsw] at he2
      exact Bool.noConfusion he2
    · simp only [List.cons_append, List.cons.injEq] at hEq
      obtain ⟨-, -, hrest⟩ := hEq
      exact ih pre e post hrest

theorem single_attempt_decomp {spec : TCPSpec} {tr : List SEvent}
    (h : SingleTCPRun spec tr) :
    ∀ (pre : List SEvent) (e : GoError) (post : List SEvent),
      tr = pre ++ .attempt (.err e) :: post →
      (shouldWait e = false → post = [.emit (failedMsg spec e), .close]) ∧
      (shouldWait e = true →
        (∃ q, post = .cancel :: q) ∨ ∃ r q, post = .tick :: .attempt r :: q) := by
  cases h with
  | first_ready =>
    intro pre e post hEq
    rcases pre with _ | ⟨a, _ | ⟨b, _ | ⟨c, _ | ⟨d, pre⟩⟩⟩⟩ <;> simp at hEq
  | first_failed e2 he2 =>
    intro pre e post hEq
    rcases pre with _ | ⟨a, _ | ⟨b, _ | ⟨c, _ | ⟨d, pre⟩⟩⟩⟩
    · simp at hEq
    · simp only [List.cons_append, List.nil_append, List.cons.injEq] at hEq
      obtain ⟨-, he3, hpost⟩ := hEq
      injection he3 with h3
      injection h3 with h4
      subst h4
      refine ⟨fun _ => hpost.symm, fun hsw => ?_⟩
      rw [he2] at hsw
      exact Bool.noConfusion hsw
    · simp at hEq
    · simp at hEq
    · simp at hEq
  | first_wait e2 he2 rest hr =>
    intro pre e post hEq
    rcases pre with _ | ⟨a, _ | ⟨b, pre⟩⟩
    · simp at hEq
    · simp only [List.cons_append, List.nil_append, List.cons.injEq] at hEq
      obtain ⟨-, he3, hpost⟩ := hEq
      injection he3 with h3
      injection h3 with h4
      subst h4
      subst hpost
      refine ⟨fun hsw => ?_, fun _ => loop_head hr⟩
      rw [hsw] at he2
      exact Bool.noConfusion he2
    · simp only [List.cons_append, List.cons.injEq] at hEq
      obtain ⟨-, -, hrest⟩ := hEq
      exact loop_attempt_decomp hr pre e post hrest

/-- C5: `shouldWait` returns true exactly for an i/o timeout or a
connection actively refused (a `*net.OpError` unwrapping through
`*os.SyscallError` to `syscall.ECONNREFUSED`); inside a prober run, an
attempt failing with any other error is immediately followed by the
terminal `Failed` message carrying that error and the channel close (no
retry), while an attempt failing with a should-wait error is followed by
the cancellation branch or by the next poll tick and the retry attempt. -/
theorem c5_should_wait_classifier :
    (∀ e : GoError, shouldWait e = true ↔
      (osIsTimeout e = true ∨
        ∃ t1 t2 n, e = .opError t1 (.syscallError t2 (.errno n)) ∧
          n = ECONNREFUSED)) ∧
    (∀ (spec : TCPSpec) (tr pre post : List SEvent) (e : GoError),
      SingleTCPRun spec tr → tr = pre ++ .attempt (.err e) :: post →
      (shouldWait e = false → post = [.emit (failedMsg spec e), .close]) ∧
      (shouldWait e = true →
        (∃ q, post = .cancel :: q) ∨ ∃ r q, post = .tick :: .attempt r :: q)) := by
  constructor
  · intro e
    by_cases ht : osIsTimeout e = true
    · simp [shouldWait, ht]
    · simp only [shouldWait, ht, if_false, Bool.false_eq_true]
      cases e with
      | opError t inner =>
        cases inner with
        | syscallError t2 iinner =>
          cases iinner <;> simp_all [osIsTimeout, timeoutMethod, ECONNREFUSED]
        | opError t2 i2 => simp_all [osIsTimeout, timeoutMethod]
        | errno n => simp_all [osIsTimeout, timeoutMethod]
        | contextCanceled => simp_all [osIsTimeout, timeoutMethod]
        | timeoutLimitError => simp_all [osIsTimeout, timeoutMethod]
        | otherError t2 => simp_all [osIsTimeout, timeoutMethod]
      | syscallError t inner => simp_all [osIsTimeout, timeoutMethod]
      | errno n => simp_all [osIsTimeout, timeoutMethod]
      | contextCanceled => simp_all [osIsTimeout, timeoutMethod]
      | timeoutLimitError => simp_all [osIsTimeout, timeoutMethod]
      | otherError t => simp_all [osIsTimeout, timeoutMethod]
  · intro spec tr pre post e h hEq
    exact single_attempt_decomp h pre e post hEq

/-- Witness for `c5_should_wait_classifier`: a definitive (non-timeout,
non-refused) error terminates the prober at once with `Failed`. -/
theorem c5_should_wait_classifier_witness :
    SingleTCPRun ⟨['c'], ['3'], 1⟩
      [.emit (startMsg ⟨['c'], ['3'], 1⟩),
        .attempt (.err (.otherError false)),
        .emit (failedMsg ⟨['c'], ['3'], 1⟩ (.otherError false)), .close] ∧
    shouldWait (.otherError false) = false ∧
    [SEvent.emit (failedMsg ⟨['c'], ['3'], 1⟩ (.otherError false)),
        SEvent.close] =
      [.emit (failedMsg ⟨['c'], ['3'], 1⟩ (.otherError false)), .close] := by
  have hrun : SingleTCPRun ⟨['c'], ['3'], 1⟩
      [.emit (startMsg ⟨['c'], ['3'], 1⟩),
        .attempt (.err (.otherError false)),
        .emit (failedMsg ⟨['c'], ['3'], 1⟩ (.otherError false)), .close] :=
    .first_failed (.otherError false) (by decide)
  refine ⟨hrun, by decide, ?_⟩
  exact (c5_should_wait_classifier.2 ⟨['c'], ['3'], 1⟩ _
    [.emit (startMsg ⟨['c'], ['3'], 1⟩)] _ (.otherError false) hrun rfl).1
    (by decide)

/-! ## Lemmas about the coordinator -/

theorem runs_emits {specs : List TCPSpec} {trs : List (List SEvent)}
    (h : List.Forall₂ (fun spec tr => SingleTCPRun spec tr) specs trs) :
    ∃ tms, List.Forall₂ (fun spec m => terminalFor spec m) specs tms ∧
      trs.map emitsOf =
        List.zipWith (fun spec m => [startMsg spec, m]) specs tms := by
  induction h with
  | nil => exact ⟨[], .nil, rfl⟩
  | cons hst hrest ih =>
    obtain ⟨tms, hf, hmap⟩ := ih
    obtain ⟨a, mid, m, hE, hterm, hem, -⟩ := single_shape hst
    exact ⟨m :: tms, .cons hterm hf, by simp [hem, hmap]⟩

theorem zip_join_perm {specs : List TCPSpec} {tms : List TCPMessage}
    (h : List.Forall₂ (fun spec m => terminalFor spec m) specs tms) :
    (List.zipWith (fun spec m => [startMsg spec, m]) specs tms).flatten.Perm
      (specs.map startMsg ++ tms) := by
  induction h with
  | nil => simp
  | cons h1 h2 ih =>
    simp only [List.zipWith_cons_cons, List.flatten_cons, List.map_cons,
      List.cons_append]
    refine List.Perm.cons _ ?_
    exact (ih.cons _).trans List.perm_middle.symm

theorem forall2_prefix_terminal {specs : List TCPSpec}
    {trs : List (List SEvent)} {ps : List (List TCPMessage)}
    (h1 : List.Forall₂ (fun spec tr => SingleTCPRun spec tr) specs trs)
    (h2 : List.Forall₂ (fun p tr => p <+: emitsOf tr) ps trs) :
    List.Forall₂ (fun spec p => ∃ m, terminalFor spec m ∧
      p <+: [startMsg spec, m]) specs ps := by
  induction h1 generalizing ps with
  | nil =>
    cases h2
    exact .nil
  | cons hst hrest ih =>
    cases h2 with
    | cons hp hprest =>
      obtain ⟨a, mid, m, hE, hterm, hem, -⟩ := single_shape hst
      rw [hem] at hp
      exact .cons ⟨m, hterm, hp⟩ (ih hprest)

/-- C1, amended: the coordinator's output closes exactly once (it is one
finite stream), and
* when the merged stream closes before the deadline, the output consists
  of exactly one `Start` and exactly one terminal message per requested
  target (a permutation of them, with each target's `Start` preceding its
  terminal), and no synthetic spec-less message;
* when the deadline fires first, the output is a forwarded portion
  followed by exactly one synthetic terminal `Failed` message tied to no
  target, where each target contributes only a prefix of its
  `Start`-then-terminal stream — a target still pending at the deadline
  keeps its terminal (and possibly even its `Start`) off the output. -/
theorem c1_coordinator_output :
    ∀ (specs : List TCPSpec) (out : List TCPMessage), AllTCPOut specs out →
      (∃ tms, List.Forall₂ (fun spec m => terminalFor spec m) specs tms ∧
        out.Perm (specs.map startMsg ++ tms) ∧
        ∀ i (hi : i < specs.length) (hi2 : i < tms.length),
          [startMsg (specs.get ⟨i, hi⟩), tms.get ⟨i, hi2⟩].Sublist out) ∨
      (∃ w ps, out = w ++ [syntheticTimeoutMsg] ∧
        List.Forall₂ (fun spec p => ∃ m, terminalFor spec m ∧
          p <+: [startMsg spec, m]) specs ps ∧
        Merged ps w) := by
  intro specs out h
  cases h with
  | completed trs out hrun hmerge =>
    left
    obtain ⟨tms, hf, hmap⟩ := runs_emits hrun
    rw [hmap] at hmerge
    refine ⟨tms, hf, (merged_perm hmerge).trans (zip_join_perm hf), ?_⟩
    intro i hi hi2
    have hiz : i <
        (List.zipWith (fun spec m => [startMsg spec, m]) specs tms).length := by
      rw [List.length_zipWith]
      omega
    have hget : (List.zipWith (fun spec m => [startMsg spec, m]) specs
        tms).get ⟨i, hiz⟩ =
        [startMsg (specs.get ⟨i, hi⟩), tms.get ⟨i, hi2⟩] :=
      List.get_zipWith
    have hsub := merged_get_sublist hmerge i hiz
    rw [hget] at hsub
    exact hsub
  | timedOut trs ps w hrun hpre hmerge =>
    right
    exact ⟨w, ps, rfl, forall2_prefix_terminal hrun hpre, hmerge⟩

/-- Counterexample to C1 as stated: a reachable timed-out output stream of
`AllTCP` for one target contains that target's `Start` and the synthetic
timeout message but no terminal message for the target — the claim's "for
every originally requested target, a Start followed eventually by exactly
one terminal message" fails in the deadline-exceeded case, exactly as
`TestAllTCPTimeout` (src/wait/tcp_test.go) expects for its still-pending
first server. -/
theorem c1_counterexample :
    AllTCPOut [⟨['h'], ['1'], 1⟩]
      [startMsg ⟨['h'], ['1'], 1⟩, syntheticTimeoutMsg] ∧
    ¬ ∃ m ∈ [startMsg ⟨['h'], ['1'], 1⟩, syntheticTimeoutMsg],
        terminalFor ⟨['h'], ['1'], 1⟩ m := by
  constructor
  · have hrun : SingleTCPRun ⟨['h'], ['1'], 1⟩
        (.emit (startMsg ⟨['h'], ['1'], 1⟩) ::
          .attempt (.err (.opError true (.otherError false))) ::
          [.cancel, .emit (failedMsg ⟨['h'], ['1'], 1⟩ ctxErr), .close]) :=
      .first_wait (.opError true (.otherError false)) (by decide) _ .done_cancel
    have hmerge : Merged [[startMsg ⟨['h'], ['1'], 1⟩]]
        [startMsg ⟨['h'], ['1'], 1⟩] := by
      refine .step _ 0 (by simp) _ [] _ rfl ?_
      exact .done _ (by simp)
    exact AllTCPOut.timedOut _ _ _ (.cons hrun .nil)
      (.cons ⟨[failedMsg ⟨['h'], ['1'], 1⟩ ctxErr], rfl⟩ .nil) hmerge
  · decide

/-- Witness for `c1_coordinator_output` on one target that succeeds before
the deadline. -/
theorem c1_coordinator_output_witness :
    AllTCPOut [⟨['h'], ['1'], 1⟩]
      [startMsg ⟨['h'], ['1'], 1⟩, readyMsg ⟨['h'], ['1'], 1⟩] ∧
    ((∃ tms, List.Forall₂ (fun spec m => terminalFor spec m)
        [(⟨['h'], ['1'], 1⟩ : TCPSpec)] tms ∧
      List.Perm [startMsg ⟨['h'], ['1'], 1⟩, readyMsg ⟨['h'], ['1'], 1⟩]
        ([(⟨['h'], ['1'], 1⟩ : TCPSpec)].map startMsg ++ tms) ∧
      ∀ i (hi : i < [(⟨['h'], ['1'], 1⟩ : TCPSpec)].length)
          (hi2 : i < tms.length),
        [startMsg ([(⟨['h'], ['1'], 1⟩ : TCPSpec)].get ⟨i, hi⟩),
          tms.get ⟨i, hi2⟩].Sublist
          [startMsg ⟨['h'], ['1'], 1⟩, readyMsg ⟨['h'], ['1'], 1⟩]) ∨
    (∃ w ps,
      [startMsg ⟨['h'], ['1'], 1⟩, readyMsg ⟨['h'], ['1'], 1⟩] =
        w ++ [syntheticTimeoutMsg] ∧
      List.Forall₂ (fun spec p => ∃ m, terminalFor spec m ∧
        p <+: [startMsg spec, m]) [(⟨['h'], ['1'], 1⟩ : TCPSpec)] ps ∧
      Merged ps w)) := by
  have hrun : SingleTCPRun ⟨['h'], ['1'], 1⟩
      [.emit (startMsg ⟨['h'], ['1'], 1⟩), .attempt .ok,
        .emit (readyMsg ⟨['h'], ['1'], 1⟩), .close] := .first_ready
  have hmerge : Merged
      [[startMsg ⟨['h'], ['1'], 1⟩, readyMsg ⟨['h'], ['1'], 1⟩]]
      [startMsg ⟨['h'], ['1'], 1⟩, readyMsg ⟨['h'], ['1'], 1⟩] := by
    refine .step _ 0 (by simp) _ _ _ rfl ?_
    refine .step _ 0 (by simp) _ [] _ rfl ?_
    exact .done _ (by simp)
  have hall : AllTCPOut [⟨['h'], ['1'], 1⟩]
      [startMsg ⟨['h'], ['1'], 1⟩, readyMsg ⟨['h'], ['1'], 1⟩] :=
    AllTCPOut.completed
      [[.emit (startMsg ⟨['h'], ['1'], 1⟩), .attempt .ok,
        .emit (readyMsg ⟨['h'], ['1'], 1⟩), .close]] _
      (.cons hrun .nil) hmerge
  exact ⟨hall, c1_coordinator_output _ _ hall⟩

end WfWait
